import Mathlib

/-!
Shallow embedding of the RAG-APP core (src/app/core/rag_engine.py,
src/app/core/ingestion.py, src/app/core/chat.py) and proofs about the
claims of the natural-language specification.

Modelling conventions:
  - Python dicts become association lists (first occurrence wins on lookup,
    assignment replaces the first binding in place or appends at the end,
    `update` folds assignments left to right) — this matches CPython dict
    semantics for the duplicate-free dicts the program builds.
  - Scalar metadata values become the inductive MVal (string / nat / rational /
    bool) with Python truthiness.
  - Nondeterministic external inputs (uuid4, datetime.now, Chroma-generated
    ids, fetched page content, the parsed file, the retrieval ranking and the
    LLM answer) become explicit parameters, so every operation is a pure
    function of the engine state and those inputs.
  - Fallible steps (normalizer / fetch) become Except- or Option-valued
    parameters; the embedded functions reproduce the try/except structure of
    the source.
-/

namespace RagApp

/-- Scalar metadata value, mirroring the Python values stored in document
metadata and filters: strings, ints, floats (as rationals) and bools. -/
inductive MVal where
  | s (v : String)
  | n (v : Nat)
  | q (v : ℚ)
  | b (v : Bool)
deriving DecidableEq, Repr

/-- Python str() of a metadata value, as used by f-string interpolation in
the citation dedup key. -/
def MVal.toStr : MVal → String
  | .s v => v
  | .n v => toString v
  | .q v => toString v
  | .b v => cond v "True" "False"

/-- Python truthiness of a metadata value. -/
def MVal.truthy : MVal → Bool
  | .s v => v != ""
  | .n v => v != 0
  | .q v => v != 0
  | .b v => v

/-- A Python dict with string keys, as an association list. -/
abbrev Dict := List (String × MVal)

/-- Dict lookup: value of the first binding of the key (d.get(k)). -/
def dget {α : Type} : List (String × α) → String → Option α
  | [], _ => none
  | p :: rest, k => if p.1 = k then some p.2 else dget rest k

/-- Dict assignment d[k] = v: replace the first binding of k in place,
or append a new binding at the end. -/
def dinsert {α : Type} : List (String × α) → String → α → List (String × α)
  | [], k, v => [(k, v)]
  | p :: rest, k, v => if p.1 = k then (k, v) :: rest else p :: dinsert rest k v

/-- Dict update d.update(m): assign each binding of m into d, left to right. -/
def dupdateWith {α : Type} (d m : List (String × α)) : List (String × α) :=
  m.foldl (fun acc p => dinsert acc p.1 p.2) d

/-- One text unit as stored in the vector index: a Chroma id, the chunk text
and its metadata dict. -/
structure StoredUnit where
  uid : String
  content : String
  meta : Dict
deriving DecidableEq, Repr

/-- A langchain Document as produced by a source normalizer, before the
engine stamps ingestion metadata onto it. -/
structure RawDoc where
  content : String
  meta : Dict
deriving DecidableEq, Repr

/-- The mutable state of RAGEngine: the vector store contents (in insertion
order), the tracking set of current web ids, the latest document id pointer,
the in-memory document registry, and the registry copy persisted on disk. -/
structure EngineState where
  store : List StoredUnit
  currentWebIds : List String
  latestDocumentId : Option String
  documentMetadata : List (String × Dict)
  persistedMetadata : List (String × Dict)
deriving DecidableEq, Repr

/-- Engine state right after RAGEngine.__init__ against a fresh persistence
directory: everything empty, no latest document. -/
def emptyEngine : EngineState :=
  { store := []
    currentWebIds := []
    latestDocumentId := none
    documentMetadata := []
    persistedMetadata := [] }

/-- RAGEngine.__init__ plus _load_document_metadata against an existing
persistence directory: the vector store contents and the registry file are
reloaded from disk (none models a missing or unparsable registry file), but
current_web_ids is a fresh empty set and latest_document_id is reset to None
— __init__ assigns None and _load_document_metadata only fills
document_metadata. -/
def initEngine (persistedStore : List StoredUnit)
    (diskRegistry : Option (List (String × Dict))) : EngineState :=
  { store := persistedStore
    currentWebIds := []
    latestDocumentId := none
    documentMetadata := diskRegistry.getD []
    persistedMetadata := diskRegistry.getD [] }

/-- The per-document metadata stamping loop of RAGEngine.add_documents:
first doc.metadata["source_type"] = source_type and
doc.metadata["document_id"] = doc_id are assigned, then (if caller metadata
was supplied) doc.metadata.update(metadata) runs — after the stamping. -/
def stampDoc (sourceType docId : String) (callerMeta : Option Dict)
    (d : RawDoc) : RawDoc :=
  let m := dinsert (dinsert d.meta "source_type" (.s sourceType))
      "document_id" (.s docId)
  let m := match callerMeta with
    | some cm => dupdateWith m cm
    | none => m
  { d with meta := m }

/-- The registry entry built by RAGEngine.add_documents:
a dict literal with source_type and timestamp, merged with the caller
metadata (caller keys win, as in the ** splat). -/
def registryEntry (sourceType ts : String) (callerMeta : Option Dict) : Dict :=
  dupdateWith [("source_type", MVal.s sourceType), ("timestamp", MVal.s ts)]
    (callerMeta.getD [])

/-- RAGEngine.add_documents: generate a document id (parameter docId, for
uuid4), stamp source_type/document_id onto every unit then merge caller
metadata, record the registry entry, set latest_document_id, append the units
to the vector store (genId models Chroma auto-generated ids), and persist the
registry (_save_document_metadata). -/
def addDocuments (st : EngineState) (docs : List RawDoc) (sourceType : String)
    (callerMeta : Option Dict) (docId ts : String) (genId : Nat → String) :
    EngineState :=
  let stamped := docs.map (stampDoc sourceType docId callerMeta)
  let registry := dinsert st.documentMetadata docId
    (registryEntry sourceType ts callerMeta)
  let newUnits := stamped.enum.map
    (fun p => StoredUnit.mk (genId p.1) p.2.content p.2.meta)
  { st with
    documentMetadata := registry
    latestDocumentId := some docId
    store := st.store ++ newUnits
    persistedMetadata := registry }

/-- RAGEngine._cleanup_web_results: if the tracking set is non-empty, compute
the ids that are not current web ids; only when that list is non-empty are
the current web ids deleted from the collection; in every case the tracking
set is cleared. -/
def cleanupWebResults (st : EngineState) : EngineState :=
  if st.currentWebIds.isEmpty then st
  else
    let allIds := st.store.map (fun u => u.uid)
    let docsToKeep := allIds.filter (fun i => !(st.currentWebIds.contains i))
    let newStore :=
      if docsToKeep.isEmpty then st.store
      else st.store.filter (fun u => !(st.currentWebIds.contains u.uid))
    { st with store := newStore, currentWebIds := [] }

/-- The id f"web_{url}_{i}" given to the i-th chunk of a web ingestion. -/
def webDocId (url : String) (i : Nat) : String :=
  "web_" ++ url ++ "_" ++ toString i

/-- The document built for the i-th chunk in ingest_web_page. -/
def webUnit (url title : String) (i : Nat) (chunk : String) : StoredUnit :=
  { uid := webDocId url i
    content := chunk
    meta := [("source", MVal.s "web"), ("url", MVal.s url),
             ("chunk", MVal.n i), ("title", MVal.s title),
             ("id", MVal.s (webDocId url i))] }

/-- Result of fetching and cleaning a web page in ingest_web_page: the page
title and the chunks produced by the text splitter. -/
structure WebFetch where
  title : String
  chunks : List String
deriving DecidableEq, Repr

/-- Set.update on the web id tracking set (modelled as a duplicate-free
list): add each id not already present. -/
def addWebIds (s : List String) (ids : List String) : List String :=
  ids.foldl (fun acc i => if acc.contains i then acc else acc ++ [i]) s

/-- ingest_web_page: first _cleanup_web_results runs, then the page is
fetched (fetch = none models a non-200 status or a raised fetch/parse error:
the function returns False with no further writes, the cleanup having already
happened); on success the chunks become documents with explicit
ids web_{url}_{i}, added directly to the vector store — no document id is
generated, no registry entry is recorded, latest_document_id is untouched and
nothing is persisted — and the tracking set is updated with the new ids. -/
def ingestWebPage (st : EngineState) (url : String) (fetch : Option WebFetch) :
    Bool × EngineState :=
  let st := cleanupWebResults st
  match fetch with
  | none => (false, st)
  | some f =>
    let units := f.chunks.enum.map (fun p => webUnit url f.title p.1 p.2)
    let docIds := (List.range f.chunks.length).map (webDocId url)
    (true,
      { st with
        store := st.store ++ units
        currentWebIds := addWebIds st.currentWebIds docIds })

/-- The caller-independent inputs of one ingest_file call: file name, path,
ingestion time, extension and size, from which the metadata dict is built. -/
structure FileInfo where
  fileName : String
  sourcePath : String
  ingestionTime : String
  fileType : String
  fileSize : Nat
deriving DecidableEq, Repr

/-- The metadata dict built inside ingest_file. -/
def fileMetadata (fi : FileInfo) (totalChunks : Nat) : Dict :=
  [("file", MVal.s fi.fileName), ("source", MVal.s fi.sourcePath),
   ("ingestion_time", MVal.s fi.ingestionTime),
   ("file_type", MVal.s fi.fileType), ("file_size", MVal.n fi.fileSize),
   ("total_chunks", MVal.n totalChunks)]

/-- ingest_file: the whole body is wrapped in try/except — a normalizer
failure (processed = .error) is caught, logged and turned into a normal
return of False with the engine state untouched; an empty extraction returns
False; otherwise add_documents runs with source_type "file" and the built
metadata and the call returns True. The Except codomain records that the
embedded function never propagates an error: every branch is .ok. -/
def ingestFile (st : EngineState) (processed : Except String (List RawDoc))
    (fi : FileInfo) (docId ts : String) (genId : Nat → String) :
    Except String (Bool × EngineState) :=
  match processed with
  | .error _ => .ok (false, st)
  | .ok [] => .ok (false, st)
  | .ok docs =>
    .ok (true,
      addDocuments st docs "file" (some (fileMetadata fi docs.length))
        docId ts genId)

/-- One source citation dict built in RAGEngine.query: the file, chunk and
page metadata values (default empty string), the relevance score (default
1.0) and, when attached, the owning registry entry. -/
structure SourceInfo where
  file : MVal
  chunk : MVal
  page : MVal
  relevance : ℚ
  metadata : Option Dict
deriving DecidableEq, Repr

/-- doc.metadata.get("relevance", 1.0): default 1.0 when the key is absent.
A present non-numeric value would be a TypeError in the later sum in the
source and never occurs; it is mapped to 1 here. -/
def relevanceOf (m : Dict) : ℚ :=
  match dget m "relevance" with
  | some (.q r) => r
  | some (.n k) => (k : ℚ)
  | some _ => 1
  | none => 1

/-- The dedup key f-string of RAGEngine.query:
chunk_id = str(metadata.get("file", "")) + "_" + str(metadata.get("chunk", "")). -/
def chunkKey (m : Dict) : String :=
  ((dget m "file").getD (.s "")).toStr ++ "_" ++ ((dget m "chunk").getD (.s "")).toStr

/-- The registry attachment of RAGEngine.query: doc_id =
metadata.get("document_id"); if doc_id is truthy and a key of
document_metadata, the registry entry is attached. Only a non-empty string
can pass both tests, since registry keys are strings. -/
def lookupRegistry (reg : List (String × Dict)) (m : Dict) : Option Dict :=
  match dget m "document_id" with
  | some (.s i) => if i != "" then dget reg i else none
  | _ => none

/-- The source_info dict built per kept source document in RAGEngine.query. -/
def mkSourceInfo (reg : List (String × Dict)) (u : StoredUnit) : SourceInfo :=
  { file := (dget u.meta "file").getD (.s "")
    chunk := (dget u.meta "chunk").getD (.s "")
    page := (dget u.meta "page").getD (.s "")
    relevance := relevanceOf u.meta
    metadata := lookupRegistry reg u.meta }

/-- The citation dedup loop of RAGEngine.query: walk the retrieved source
documents in order, keep a unit only when its chunk key has not been seen,
and build the source_info dict for each kept unit. -/
def dedupSources (reg : List (String × Dict)) :
    List StoredUnit → List String → List SourceInfo
  | [], _ => []
  | u :: rest, seen =>
    let key := chunkKey u.meta
    if seen.contains key then dedupSources reg rest seen
    else mkSourceInfo reg u :: dedupSources reg rest (key :: seen)

/-- Unit-level view of the same dedup loop: the retrieved units that survive
deduplication, in retrieval order. -/
def keepFirsts : List StoredUnit → List String → List StoredUnit
  | [], _ => []
  | u :: rest, seen =>
    let key := chunkKey u.meta
    if seen.contains key then keepFirsts rest seen
    else u :: keepFirsts rest (key :: seen)

/-- Exact-match metadata filtering. Modelled from the spec: the Vector
Index (Chroma, not under src/) restricts candidates to units whose metadata
matches the filter predicate by equality on every filter key (section 4.3). -/
def matchesFilter (f m : Dict) : Bool :=
  f.all (fun p => decide (dget m p.1 = some p.2))

/-- The candidate set retrieval may draw from under a filter. -/
def candidates (st : EngineState) : Option Dict → List StoredUnit
  | none => st.store
  | some f => st.store.filter (fun u => matchesFilter f u.meta)

/-- Modelled from the spec: the relevance/diversity search of the Vector
Index (Chroma's MMR retriever with k=6, fetch_k=10, lambda 0.7 — not under
src/). The embedding-similarity ranking is an oracle: sel picks candidate
positions among the metadata-filtered units, and at most k=6 results are
returned (section 4.3: filtering restricts the candidate set before the
nearest-neighbor stage). -/
def retrieveUnits (st : EngineState) (f : Option Dict) (sel : List Nat) :
    List StoredUnit :=
  (sel.filterMap (fun i => (candidates st f).get? i)).take 6

/-- Outcome of the source_filter resolution step of RAGEngine.query: either
the early no-documents return, or an effective filter for retrieval. -/
inductive Resolved where
  | shortCircuit
  | filter (f : Option Dict)
deriving DecidableEq, Repr

/-- The filter resolution step of RAGEngine.query: when the caller filter is
present and its "latest" value is truthy, the filter is replaced by
{"document_id": latest_document_id} when a latest document exists, else the
call short-circuits. -/
def resolveFilter (st : EngineState) : Option Dict → Resolved
  | none => .filter none
  | some f =>
    if ((dget f "latest").map MVal.truthy).getD false then
      match st.latestDocumentId with
      | some d => .filter (some [("document_id", MVal.s d)])
      | none => .shortCircuit
    else .filter (some f)

/-- The response dict of RAGEngine.query. confidence = none models the
absence of the "confidence" key in the returned dict. -/
structure QueryResponse where
  answer : String
  sources : List SourceInfo
  confidence : Option ℚ
deriving DecidableEq, Repr

/-- The fixed early answer of RAGEngine.query when "latest" is requested and
no document has ever been ingested. -/
def noDocumentsMsg : String :=
  "No documents have been uploaded yet. Please upload a document first."

/-- The fixed replacement answer used when no citation remains and the model
produced no answer text (also reused verbatim by chat when its formatted
source list is empty). -/
def noRelevantInfoMsg : String :=
  "I could not find any relevant information in the available documents to answer your question. Please try rephrasing your question or ensure that the relevant document has been uploaded."

/-- The confidence computation of RAGEngine.query: the arithmetic mean of
the kept citations relevance values (every source_info dict carries the
key, so the 0 default of the sum is never used). -/
def meanRelevance (sources : List SourceInfo) : ℚ :=
  (sources.map (fun s => s.relevance)).sum / (sources.length : ℚ)

/-- RAGEngine.query: resolve the filter (possibly short-circuiting with the
fixed no-documents answer, empty sources and no confidence key), retrieve at
most 6 filtered units (sel is the ranking oracle), take the LLM answer (llm
is the model oracle applied to the question), deduplicate citations by chunk
key, and attach the mean-relevance confidence — or confidence 0 plus the
fixed no-relevant-information answer (only when the model answer is empty)
when no citation remains. -/
def query (st : EngineState) (question : String) (sourceFilter : Option Dict)
    (sel : List Nat) (llm : String → String) : QueryResponse :=
  match resolveFilter st sourceFilter with
  | .shortCircuit =>
    { answer := noDocumentsMsg, sources := [], confidence := none }
  | .filter f =>
    let answer := llm question
    let sources := dedupSources st.documentMetadata (retrieveUnits st f sel) []
    if sources.isEmpty then
      { answer := if answer = "" then noRelevantInfoMsg else answer
        sources := []
        confidence := some 0 }
    else
      { answer := answer, sources := sources
        confidence := some (meanRelevance sources) }

/-- One source entry of the chat response. The source dicts produced by
RAGEngine.query never carry a source_type key, so the web branch of chat is
dead and every entry takes the document shape; likewise they never carry a
document_id key, so document_id is the empty-string default and no registry
metadata is attached at the chat layer. -/
structure ChatSource where
  ctype : String
  file : MVal
  page : MVal
  documentId : MVal
  relevance : ℚ
  metadata : Option Dict
deriving DecidableEq, Repr

/-- The per-source formatting loop of chat (document branch; see ChatSource). -/
def chatFormatSource (s : SourceInfo) : ChatSource :=
  { ctype := "document"
    file := s.file
    page := s.page
    documentId := .s ""
    relevance := s.relevance
    metadata := none }

/-- The response dict of chat. -/
structure ChatResponse where
  answer : String
  sources : List ChatSource
  confidence : Option ℚ
deriving DecidableEq, Repr

/-- chat (src/app/core/chat.py): call RAGEngine.query, reformat the sources,
and — when the formatted source list is empty — set confidence 0.0 and
unconditionally overwrite the answer with the no-relevant-information
message. -/
def chat (st : EngineState) (question : String) (sourceFilter : Option Dict)
    (sel : List Nat) (llm : String → String) : ChatResponse :=
  let r := query st question sourceFilter sel llm
  let sources := r.sources.map chatFormatSource
  if sources.isEmpty then
    { answer := noRelevantInfoMsg, sources := [], confidence := some 0 }
  else
    { answer := r.answer, sources := sources, confidence := none }

/-- Hard character cuts of the Chunker when no separator is usable: emit
windows of targetSize characters advancing by step = targetSize - overlap,
so adjacent chunks share overlap characters; fuel bounds the recursion by
the text length. -/
def hardCut (targetSize step : Nat) : Nat → String → List String
  | 0, _ => []
  | fuel + 1, t =>
    if t.length ≤ targetSize then [t]
    else t.take targetSize :: hardCut targetSize step fuel (t.drop (max step 1))

/-- Modelled from the spec: the Chunker (section 4.1; the implementation is
langchain RecursiveCharacterTextSplitter, which is not under src/). An empty
text yields no chunk; a text of at most targetSize characters is one chunk;
a longer text is split on the first separator of the priority list
(paragraph, line, space), each piece recursively re-split with the narrower
separator set, and a piece still too long once the separators are exhausted
is hard-cut into overlapping windows. Deterministic by construction. -/
def splitWithSeps (targetSize overlap : Nat) :
    List String → String → List String
  | seps, t =>
    if t.isEmpty then []
    else if t.length ≤ targetSize then [t]
    else
      match seps with
      | [] => hardCut targetSize (targetSize - overlap) (t.length + 1) t
      | sep :: rest =>
        ((t.splitOn sep).map
          (fun piece => splitWithSeps targetSize overlap rest piece)).flatten

/-- The separator priority list of the Chunker: paragraph boundary, line
boundary, space, then hard character cuts. -/
def separators : List String := ["\n\n", "\n", " "]

/-- Modelled from the spec: split(text, target_size, overlap) — the Chunker
contract of section 4.1, applied with the separator priority list. -/
def split (t : String) (targetSize overlap : Nat) : List String :=
  splitWithSeps targetSize overlap separators t

/-! ### Dict semantics lemmas -/

theorem dget_dinsert_self {α : Type} (d : List (String × α)) (k : String) (v : α) :
    dget (dinsert d k v) k = some v := by
  induction d with
  | nil => simp [dget, dinsert]
  | cons p rest ih =>
    by_cases h : p.1 = k <;> simp [dget, dinsert, h, ih]

theorem dget_dinsert_ne {α : Type} (d : List (String × α)) (k k' : String) (v : α)
    (h : k' ≠ k) : dget (dinsert d k v) k' = dget d k' := by
  induction d with
  | nil => simp [dget, dinsert, Ne.symm h]
  | cons p rest ih =>
    by_cases hp : p.1 = k
    · subst hp
      simp [dget, dinsert, Ne.symm h]
    · simp only [dinsert, if_neg hp, dget]
      by_cases hp' : p.1 = k' <;> simp [hp', ih]

theorem dget_eq_none_of_not_mem {α : Type} (m : List (String × α)) (k : String)
    (h : k ∉ m.map Prod.fst) : dget m k = none := by
  induction m with
  | nil => rfl
  | cons p rest ih =>
    simp only [List.map_cons, List.mem_cons] at h
    push_neg at h
    simp [dget, Ne.symm h.1, ih h.2]

theorem dupdateWith_nil {α : Type} (d : List (String × α)) : dupdateWith d [] = d := rfl

theorem dupdateWith_cons {α : Type} (d : List (String × α)) (p : String × α)
    (m : List (String × α)) :
    dupdateWith d (p :: m) = dupdateWith (dinsert d p.1 p.2) m := rfl

theorem dget_dupdateWith {α : Type} (m : List (String × α)) :
    ∀ (d : List (String × α)) (k : String), (m.map Prod.fst).Nodup →
      dget (dupdateWith d m) k =
        match dget m k with
        | some v => some v
        | none => dget d k := by
  induction m with
  | nil => intro d k _; rfl
  | cons p rest ih =>
    intro d k h
    simp only [List.map_cons, List.nodup_cons] at h
    rw [dupdateWith_cons, ih _ _ h.2]
    by_cases hk : p.1 = k
    · subst hk
      rw [dget_eq_none_of_not_mem rest p.1 h.1]
      simp [dget, dget_dinsert_self]
    · cases hrest : dget rest k <;>
        simp [dget, hk, dget_dinsert_ne _ _ _ _ (Ne.symm hk), hrest]

theorem dget_stampDoc_source_type (sourceType docId : String) (cm : Dict) (d : RawDoc)
    (h : (cm.map Prod.fst).Nodup) :
    dget (stampDoc sourceType docId (some cm) d).meta "source_type" =
      some ((dget cm "source_type").getD (MVal.s sourceType)) := by
  show dget (dupdateWith _ cm) _ = _
  rw [dget_dupdateWith cm _ _ h]
  rw [dget_dinsert_ne _ _ _ _ (by decide), dget_dinsert_self]
  cases dget cm "source_type" <;> rfl

theorem dget_stampDoc_document_id (sourceType docId : String) (cm : Dict) (d : RawDoc)
    (h : (cm.map Prod.fst).Nodup) :
    dget (stampDoc sourceType docId (some cm) d).meta "document_id" =
      some ((dget cm "document_id").getD (MVal.s docId)) := by
  show dget (dupdateWith _ cm) _ = _
  rw [dget_dupdateWith cm _ _ h]
  rw [dget_dinsert_self]
  cases dget cm "document_id" <;> rfl

/-! ### Structural lemmas about the embedded operations -/

theorem snd_mem_of_mem_enumFrom {α : Type} :
    ∀ (l : List α) (n : Nat) (p : Nat × α), p ∈ l.enumFrom n → p.2 ∈ l := by
  intro l
  induction l with
  | nil => intro n p h; simp [List.enumFrom] at h
  | cons a t ih =>
    intro n p h
    simp only [List.enumFrom, List.mem_cons] at h
    rcases h with h | h
    · subst h; exact List.mem_cons_self _ _
    · exact List.mem_cons_of_mem _ (ih _ _ h)

theorem meta_of_mem_newUnits (stamped : List RawDoc) (genId : Nat → String)
    (u : StoredUnit)
    (h : u ∈ stamped.enum.map (fun p => StoredUnit.mk (genId p.1) p.2.content p.2.meta)) :
    ∃ d ∈ stamped, u.meta = d.meta := by
  rcases List.mem_map.mp h with ⟨p, hp, rfl⟩
  exact ⟨p.2, snd_mem_of_mem_enumFrom _ _ _ hp, rfl⟩

theorem addDocuments_store_drop (st : EngineState) (docs : List RawDoc)
    (sourceType : String) (callerMeta : Option Dict) (docId ts : String)
    (genId : Nat → String) :
    (addDocuments st docs sourceType callerMeta docId ts genId).store.drop
        st.store.length =
      (docs.map (stampDoc sourceType docId callerMeta)).enum.map
        (fun p => StoredUnit.mk (genId p.1) p.2.content p.2.meta) := by
  show (st.store ++ _).drop st.store.length = _
  rw [List.drop_left]

theorem cleanupWebResults_registry (st : EngineState) :
    (cleanupWebResults st).latestDocumentId = st.latestDocumentId ∧
    (cleanupWebResults st).documentMetadata = st.documentMetadata ∧
    (cleanupWebResults st).persistedMetadata = st.persistedMetadata := by
  unfold cleanupWebResults
  split <;> simp

theorem ingestWebPage_registry (st : EngineState) (url : String)
    (fetch : Option WebFetch) :
    (ingestWebPage st url fetch).2.latestDocumentId = st.latestDocumentId ∧
    (ingestWebPage st url fetch).2.documentMetadata = st.documentMetadata ∧
    (ingestWebPage st url fetch).2.persistedMetadata = st.persistedMetadata := by
  obtain ⟨h1, h2, h3⟩ := cleanupWebResults_registry st
  cases fetch <;> simp [ingestWebPage, h1, h2, h3]

theorem mem_candidates_matches (st : EngineState) (f : Dict) (u : StoredUnit)
    (h : u ∈ candidates st (some f)) : matchesFilter f u.meta = true :=
  (List.mem_filter.mp h).2

theorem mem_retrieveUnits_matches (st : EngineState) (f : Dict) (sel : List Nat)
    (u : StoredUnit) (h : u ∈ retrieveUnits st (some f) sel) :
    matchesFilter f u.meta = true := by
  have h1 : u ∈ sel.filterMap (fun i => (candidates st (some f)).get? i) :=
    List.take_subset _ _ h
  rcases List.mem_filterMap.mp h1 with ⟨i, _, hi⟩
  exact mem_candidates_matches st f u (List.get?_mem hi)

theorem matchesFilter_singleton (k : String) (v : MVal) (m : Dict)
    (h : matchesFilter [(k, v)] m = true) : dget m k = some v := by
  simp [matchesFilter] at h
  exact h

theorem dedupSources_eq_map_keepFirsts (reg : List (String × Dict)) :
    ∀ (docs : List StoredUnit) (seen : List String),
      dedupSources reg docs seen = (keepFirsts docs seen).map (mkSourceInfo reg) := by
  intro docs
  induction docs with
  | nil => intro seen; rfl
  | cons u rest ih =>
    intro seen
    by_cases h : chunkKey u.meta ∈ seen <;>
      simp [dedupSources, keepFirsts, h, ih]

theorem keepFirsts_sublist : ∀ (docs : List StoredUnit) (seen : List String),
    (keepFirsts docs seen).Sublist docs := by
  intro docs
  induction docs with
  | nil => intro seen; exact List.Sublist.refl _
  | cons u rest ih =>
    intro seen
    simp only [keepFirsts]
    by_cases h : seen.contains (chunkKey u.meta)
    · simp only [h, if_true]
      exact (ih seen).cons _
    · simp only [h, Bool.false_eq_true, if_false]
      exact (ih _).cons₂ _

theorem keepFirsts_not_seen_and_nodup :
    ∀ (docs : List StoredUnit) (seen : List String),
      (∀ u ∈ keepFirsts docs seen, chunkKey u.meta ∉ seen) ∧
      ((keepFirsts docs seen).map (fun u => chunkKey u.meta)).Nodup := by
  intro docs
  induction docs with
  | nil => intro seen; exact ⟨by intro u h; simp [keepFirsts] at h, List.nodup_nil⟩
  | cons u rest ih =>
    intro seen
    simp only [keepFirsts]
    by_cases h : seen.contains (chunkKey u.meta)
    · simp only [h, if_true]
      exact ih seen
    · simp only [h, Bool.false_eq_true, if_false]
      have hu : chunkKey u.meta ∉ seen := by
        intro hc
        exact absurd (List.elem_eq_true_of_mem hc) (by simp [List.contains] at h ⊢; exact h)
      obtain ⟨ihmem, ihnd⟩ := ih (chunkKey u.meta :: seen)
      refine ⟨?_, ?_⟩
      · intro v hv
        rcases List.mem_cons.mp hv with rfl | hv
        · exact hu
        · intro hc
          exact (ihmem v hv) (List.mem_cons_of_mem _ hc)
      · rw [List.map_cons, List.nodup_cons]
        refine ⟨?_, ihnd⟩
        intro hc
        rcases List.mem_map.mp hc with ⟨v, hv, hkey⟩
        exact (ihmem v hv) (by rw [hkey]; exact List.mem_cons_self _ _)

theorem keepFirsts_find? :
    ∀ (docs : List StoredUnit) (seen : List String) (k : String),
      seen.contains k = false →
      (keepFirsts docs seen).find? (fun u => chunkKey u.meta == k) =
        docs.find? (fun u => chunkKey u.meta == k) := by
  intro docs
  induction docs with
  | nil => intro seen k _; rfl
  | cons u rest ih =>
    intro seen k hk
    simp only [keepFirsts]
    by_cases hc : seen.contains (chunkKey u.meta)
    · simp only [hc, if_true]
      have hne : (chunkKey u.meta == k) = false := by
        by_cases he : chunkKey u.meta = k
        · subst he; rw [hc] at hk; exact absurd hk (by simp)
        · simp [he]
      rw [List.find?_cons_of_neg _ (by simp [hne])]
      exact ih seen k hk
    · simp only [hc, Bool.false_eq_true, if_false]
      by_cases he : chunkKey u.meta = k
      · subst he
        rw [List.find?_cons_of_pos _ (by simp), List.find?_cons_of_pos _ (by simp)]
      · rw [List.find?_cons_of_neg _ (by simp [he]), List.find?_cons_of_neg _ (by simp [he])]
        refine ih _ k ?_
        simp [List.contains] at hk ⊢
        exact ⟨fun hc2 => he hc2.symm, hk⟩

/-! ### Shared concrete sample data for witnesses and counterexamples -/

/-- A Chroma-style id generator sample. -/
def sampleGen : Nat → String := fun i => "u" ++ toString i

/-- A sample ingested file description. -/
def sampleFile : FileInfo := ⟨"f.txt", "/uploads/f.txt", "t0", ".txt", 3⟩

/-- A sample registry with one known document id. -/
def sampleReg : List (String × Dict) := [("D", [("source_type", MVal.s "file")])]

/-- A sample unit owned by document D with dedup key f_0. -/
def unitA : StoredUnit :=
  ⟨"x1", "c1", [("file", MVal.s "f"), ("chunk", MVal.n 0), ("document_id", MVal.s "D")]⟩

/-- A sample unit with dedup key f_1. -/
def unitB : StoredUnit := ⟨"x2", "c2", [("file", MVal.s "f"), ("chunk", MVal.n 1)]⟩

/-- A sample unit duplicating the dedup key of unitA. -/
def unitC : StoredUnit := ⟨"x3", "c3", [("file", MVal.s "f"), ("chunk", MVal.n 0)]⟩

/-- A sample engine state with one ingested document D as latest. -/
def latestEngine : EngineState :=
  { emptyEngine with latestDocumentId := some "D", store := [unitA] }

/-- Unfolding of RAGEngine.query when the filter resolution does not
short-circuit. -/
theorem query_eq_of_filter (st : EngineState) (q : String) (sf : Option Dict)
    (sel : List Nat) (llm : String → String) (f : Option Dict)
    (h : resolveFilter st sf = .filter f) :
    query st q sf sel llm =
      (let answer := llm q
       let sources := dedupSources st.documentMetadata (retrieveUnits st f sel) []
       if sources.isEmpty then
         { answer := if answer = "" then noRelevantInfoMsg else answer
           sources := []
           confidence := some 0 }
       else
         { answer := answer, sources := sources
           confidence := some (meanRelevance sources) }) := by
  unfold query
  rw [h]

/-! ### Claim theorems -/

/-- C1 (code bug evidence): the web eviction invariant fails exactly when the
index holds nothing but the previous web batch. Ingesting web page a into an
empty engine and then web page b leaves the unit web_a_0 of batch A in the
store (the docs_to_keep guard of _cleanup_web_results skips the delete when
every stored id is a current web id), while the same two ingestions on an
engine that also holds a non-web unit evict batch A and keep the non-web
unit, as the claim demands. -/
theorem c1_web_eviction_bug :
    ((ingestWebPage (ingestWebPage emptyEngine "a" (some ⟨"TA", ["alpha"]⟩)).2 "b"
        (some ⟨"TB", ["beta"]⟩)).2.store.map (fun u => u.uid)) =
      ["web_a_0", "web_b_0"] ∧
    ((ingestWebPage (ingestWebPage { emptyEngine with store := [⟨"docu1", "x", []⟩] }
        "a" (some ⟨"TA", ["alpha"]⟩)).2 "b"
        (some ⟨"TB", ["beta"]⟩)).2.store.map (fun u => u.uid)) =
      ["docu1", "web_b_0"] := by
  exact ⟨by decide, by decide⟩

/-- C2 (counterexample): with caller metadata containing the reserved key
source_type, the stored unit's source_type is the caller value, not the
ingestion's source type — metadata.update runs after the stamping, so caller
keys do overwrite the reserved keys. -/
theorem c2_counterexample :
    ¬ ∀ u ∈ (addDocuments emptyEngine [⟨"hello", []⟩] "file"
        (some [("source_type", MVal.s "evil")]) "D1" "T1" sampleGen).store,
      dget u.meta "source_type" = some (MVal.s "file") := by
  decide

/-- C2 (amended): after add_documents, every newly stored unit's source_type
is the caller metadata's source_type value when present and otherwise the
ingestion's source type, and likewise document_id is the caller value when
present and otherwise the freshly generated id — caller keys DO overwrite
the reserved keys, because the caller merge runs after the stamping. -/
theorem c2_reserved_keys_amended (st : EngineState) (docs : List RawDoc)
    (sourceType : String) (cm : Dict) (docId ts : String) (genId : Nat → String)
    (hnd : (cm.map Prod.fst).Nodup) :
    ∀ u ∈ (addDocuments st docs sourceType (some cm) docId ts genId).store.drop
        st.store.length,
      dget u.meta "source_type" =
        some ((dget cm "source_type").getD (MVal.s sourceType)) ∧
      dget u.meta "document_id" =
        some ((dget cm "document_id").getD (MVal.s docId)) := by
  intro u hu
  rw [addDocuments_store_drop] at hu
  rcases meta_of_mem_newUnits _ _ _ hu with ⟨d, hd, hmeta⟩
  rcases List.mem_map.mp hd with ⟨d0, _, rfl⟩
  rw [hmeta]
  exact ⟨dget_stampDoc_source_type _ _ _ _ hnd, dget_stampDoc_document_id _ _ _ _ hnd⟩

/-- C2 (witness): the amended statement evaluated on one concrete ingestion
with caller metadata {"k": "v"}. -/
theorem c2_witness :
    dget (StoredUnit.mk "u0" "hello"
        [("source_type", MVal.s "file"), ("document_id", MVal.s "D1"),
         ("k", MVal.s "v")]).meta "source_type" =
      some ((dget [("k", MVal.s "v")] "source_type").getD (MVal.s "file")) ∧
    dget (StoredUnit.mk "u0" "hello"
        [("source_type", MVal.s "file"), ("document_id", MVal.s "D1"),
         ("k", MVal.s "v")]).meta "document_id" =
      some ((dget [("k", MVal.s "v")] "document_id").getD (MVal.s "D1")) := by
  have h := c2_reserved_keys_amended emptyEngine [⟨"hello", []⟩] "file"
    [("k", MVal.s "v")] "D1" "T1" sampleGen (by decide)
  exact h (StoredUnit.mk "u0" "hello"
    [("source_type", MVal.s "file"), ("document_id", MVal.s "D1"),
     ("k", MVal.s "v")]) (by decide)

/-- C3 (counterexample): a web ingestion that produces one unit returns True
and stores the unit, but generates no document id, records no registry
entry, leaves latest_document_id unset and persists nothing — ingest_web_page
bypasses add_documents entirely. -/
theorem c3_counterexample :
    (ingestWebPage emptyEngine "u" (some ⟨"T", ["body"]⟩)).1 = true ∧
    (ingestWebPage emptyEngine "u" (some ⟨"T", ["body"]⟩)).2.store ≠ [] ∧
    (ingestWebPage emptyEngine "u" (some ⟨"T", ["body"]⟩)).2.latestDocumentId = none ∧
    (ingestWebPage emptyEngine "u" (some ⟨"T", ["body"]⟩)).2.documentMetadata = [] ∧
    (ingestWebPage emptyEngine "u" (some ⟨"T", ["body"]⟩)).2.persistedMetadata = [] := by
  exact ⟨rfl, by decide, rfl, rfl, rfl⟩

/-- C3 (amended): a non-web (file) ingestion that produces at least one unit
returns True via add_documents, which records the registry entry under the
fresh document id, sets it as latest_document_id and persists the registry;
a web ingestion only performs the WebBatch eviction and direct insert — it
never touches latest_document_id, the document registry or the persisted
registry. -/
theorem c3_registry_amended :
    (∀ (st : EngineState) (docs : List RawDoc) (fi : FileInfo) (docId ts : String)
        (genId : Nat → String), docs ≠ [] →
      ingestFile st (.ok docs) fi docId ts genId =
        .ok (true, addDocuments st docs "file"
          (some (fileMetadata fi docs.length)) docId ts genId) ∧
      (addDocuments st docs "file" (some (fileMetadata fi docs.length))
        docId ts genId).latestDocumentId = some docId ∧
      dget (addDocuments st docs "file" (some (fileMetadata fi docs.length))
        docId ts genId).documentMetadata docId =
        some (registryEntry "file" ts (some (fileMetadata fi docs.length))) ∧
      (addDocuments st docs "file" (some (fileMetadata fi docs.length))
        docId ts genId).persistedMetadata =
        (addDocuments st docs "file" (some (fileMetadata fi docs.length))
          docId ts genId).documentMetadata) ∧
    (∀ (st : EngineState) (url : String) (fetch : Option WebFetch),
      (ingestWebPage st url fetch).2.latestDocumentId = st.latestDocumentId ∧
      (ingestWebPage st url fetch).2.documentMetadata = st.documentMetadata ∧
      (ingestWebPage st url fetch).2.persistedMetadata = st.persistedMetadata) := by
  refine ⟨?_, ingestWebPage_registry⟩
  intro st docs fi docId ts genId hne
  refine ⟨?_, rfl, ?_, rfl⟩
  · cases docs with
    | nil => exact absurd rfl hne
    | cons d ds => rfl
  · show dget (dinsert st.documentMetadata docId _) docId = _
    exact dget_dinsert_self _ _ _

/-- C3 (witness): the amended statement evaluated on one concrete file
ingestion and one concrete web ingestion. -/
theorem c3_witness :
    (ingestFile emptyEngine (.ok [⟨"hello", []⟩]) sampleFile "D1" "T1" sampleGen =
      .ok (true, addDocuments emptyEngine [⟨"hello", []⟩] "file"
        (some (fileMetadata sampleFile 1)) "D1" "T1" sampleGen) ∧
      (addDocuments emptyEngine [⟨"hello", []⟩] "file"
        (some (fileMetadata sampleFile 1)) "D1" "T1" sampleGen).latestDocumentId =
        some "D1" ∧
      dget (addDocuments emptyEngine [⟨"hello", []⟩] "file"
        (some (fileMetadata sampleFile 1)) "D1" "T1" sampleGen).documentMetadata "D1" =
        some (registryEntry "file" "T1" (some (fileMetadata sampleFile 1))) ∧
      (addDocuments emptyEngine [⟨"hello", []⟩] "file"
        (some (fileMetadata sampleFile 1)) "D1" "T1" sampleGen).persistedMetadata =
        (addDocuments emptyEngine [⟨"hello", []⟩] "file"
          (some (fileMetadata sampleFile 1)) "D1" "T1" sampleGen).documentMetadata) ∧
    ((ingestWebPage emptyEngine "u" (some ⟨"T", ["body"]⟩)).2.latestDocumentId =
      emptyEngine.latestDocumentId ∧
      (ingestWebPage emptyEngine "u" (some ⟨"T", ["body"]⟩)).2.documentMetadata =
        emptyEngine.documentMetadata ∧
      (ingestWebPage emptyEngine "u" (some ⟨"T", ["body"]⟩)).2.persistedMetadata =
        emptyEngine.persistedMetadata) := by
  exact ⟨c3_registry_amended.1 emptyEngine [⟨"hello", []⟩] sampleFile "D1" "T1"
    sampleGen (by decide), c3_registry_amended.2 emptyEngine "u" (some ⟨"T", ["body"]⟩)⟩

/-- C4 (counterexample): on a normalizer failure, ingest_file returns
normally — isOk is true and the result is .ok (False, unchanged state) —
instead of propagating a typed ingestion error: the try/except swallows it. -/
theorem c4_counterexample :
    (ingestFile emptyEngine (Except.error "parse failure") sampleFile "D1" "T1"
      sampleGen).isOk = true ∧
    ingestFile emptyEngine (Except.error "parse failure") sampleFile "D1" "T1"
      sampleGen = .ok (false, emptyEngine) := by
  exact ⟨rfl, rfl⟩

/-- C4 (amended): for every ingestion call in which the source normalizer
fails, ingest_file catches the error, logs it and returns False — no typed
error reaches the caller — and the engine state is completely unchanged, so
no unit of that ingestion is registered (all-or-nothing holds). -/
theorem c4_error_swallowed_amended (st : EngineState) (e : String) (fi : FileInfo)
    (docId ts : String) (genId : Nat → String) :
    ingestFile st (Except.error e) fi docId ts genId = .ok (false, st) := rfl

/-- C5: when a latest document exists, a "latest" filter is rewritten to
{"document_id": latest_document_id}; every unit the retrieval can then
return carries that document_id (retrieval draws only from filter-matching
candidates), and the citations of the response are exactly the deduplication
of those retrieved units. -/
theorem c5_latest_filter_resolution (st : EngineState) (d : String) (f : Dict)
    (q : String) (sel : List Nat) (llm : String → String)
    (hd : st.latestDocumentId = some d)
    (hf : ((dget f "latest").map MVal.truthy).getD false = true) :
    resolveFilter st (some f) = .filter (some [("document_id", MVal.s d)]) ∧
    (∀ u ∈ retrieveUnits st (some [("document_id", MVal.s d)]) sel,
      dget u.meta "document_id" = some (MVal.s d)) ∧
    (query st q (some f) sel llm).sources =
      dedupSources st.documentMetadata
        (retrieveUnits st (some [("document_id", MVal.s d)]) sel) [] := by
  have hres : resolveFilter st (some f) = .filter (some [("document_id", MVal.s d)]) := by
    simp [resolveFilter, hf, hd]
  refine ⟨hres, ?_, ?_⟩
  · intro u hu
    exact matchesFilter_singleton _ _ _ (mem_retrieveUnits_matches st _ sel u hu)
  · rw [query_eq_of_filter st q (some f) sel llm _ hres]
    by_cases hemp : (dedupSources st.documentMetadata
        (retrieveUnits st (some [("document_id", MVal.s d)]) sel) []).isEmpty
    · simp only [hemp, if_true]
      exact (List.isEmpty_iff.mp hemp).symm
    · simp only [hemp, Bool.false_eq_true, if_false]

/-- C5 (witness): the resolution, the retrieved-unit property and the
citation equation on a concrete engine with latest document D. -/
theorem c5_witness :
    resolveFilter latestEngine (some [("latest", MVal.b true)]) =
      .filter (some [("document_id", MVal.s "D")]) ∧
    dget unitA.meta "document_id" = some (MVal.s "D") ∧
    (query latestEngine "q" (some [("latest", MVal.b true)]) [0]
      (fun _ => "a")).sources =
      dedupSources latestEngine.documentMetadata
        (retrieveUnits latestEngine (some [("document_id", MVal.s "D")]) [0]) [] := by
  have h := c5_latest_filter_resolution latestEngine "D" [("latest", MVal.b true)]
    "q" [0] (fun _ => "a") rfl (by decide)
  exact ⟨h.1, h.2.1 unitA (by decide), h.2.2⟩

/-- C6 (counterexample): querying a fresh engine with a "latest" filter
returns a response whose confidence field is absent (none), not 0.0 — the
short-circuit return dict of RAGEngine.query carries no "confidence" key. -/
theorem c6_counterexample :
    (query emptyEngine "q" (some [("latest", MVal.b true)]) []
      (fun _ => "ans")).confidence = none ∧
    (query emptyEngine "q" (some [("latest", MVal.b true)]) []
      (fun _ => "ans")).confidence ≠ some 0 := by
  exact ⟨rfl, by decide⟩

/-- C6 (amended): before any ingestion, a "latest" query returns — for every
ranking and model oracle, hence without consulting retrieval or the model —
the fixed no-documents answer with empty sources and no confidence field;
the chat wrapper then reports confidence 0.0 but overwrites the answer with
the no-relevant-information message. -/
theorem c6_empty_state_amended (st : EngineState) (q : String) (f : Dict)
    (sel : List Nat) (llm : String → String)
    (h0 : st.latestDocumentId = none)
    (hf : ((dget f "latest").map MVal.truthy).getD false = true) :
    query st q (some f) sel llm =
      { answer := noDocumentsMsg, sources := [], confidence := none } ∧
    chat st q (some f) sel llm =
      { answer := noRelevantInfoMsg, sources := [], confidence := some 0 } := by
  have hres : resolveFilter st (some f) = .shortCircuit := by
    simp [resolveFilter, hf, h0]
  have hq : query st q (some f) sel llm =
      { answer := noDocumentsMsg, sources := [], confidence := none } := by
    unfold query
    rw [hres]
  refine ⟨hq, ?_⟩
  unfold chat
  rw [hq]
  rfl

/-- C6 (witness): the amended statement evaluated on the fresh engine. -/
theorem c6_witness :
    query emptyEngine "q" (some [("latest", MVal.b true)]) [3] (fun _ => "x") =
      { answer := noDocumentsMsg, sources := [], confidence := none } ∧
    chat emptyEngine "q" (some [("latest", MVal.b true)]) [3] (fun _ => "x") =
      { answer := noRelevantInfoMsg, sources := [], confidence := some 0 } :=
  c6_empty_state_amended emptyEngine "q" [("latest", MVal.b true)] [3]
    (fun _ => "x") rfl (by decide)

/-- C7: for every query that does not short-circuit, the returned confidence
is the arithmetic mean of the kept citations' relevance scores (each built
with default 1 when the unit carries no relevance metadata, third conjunct);
with zero kept citations the confidence is 0 and the answer is replaced by
the fixed no-relevant-information message exactly when the model answer is
empty. -/
theorem c7_confidence_mean (st : EngineState) (q : String) (sf : Option Dict)
    (sel : List Nat) (llm : String → String) (f : Option Dict)
    (hres : resolveFilter st sf = .filter f) :
    ((query st q sf sel llm).sources ≠ [] →
      (query st q sf sel llm).confidence =
        some (meanRelevance (query st q sf sel llm).sources)) ∧
    ((query st q sf sel llm).sources = [] →
      (query st q sf sel llm).confidence = some 0 ∧
      (query st q sf sel llm).answer =
        (if llm q = "" then noRelevantInfoMsg else llm q)) ∧
    (∀ m : Dict, dget m "relevance" = none → relevanceOf m = 1) := by
  rw [query_eq_of_filter st q sf sel llm f hres]
  by_cases hemp : (dedupSources st.documentMetadata (retrieveUnits st f sel) []).isEmpty
  · simp only [hemp, if_true]
    refine ⟨fun h => absurd rfl h, fun _ => ⟨trivial, trivial⟩, ?_⟩
    intro m hm
    simp [relevanceOf, hm]
  · simp only [hemp, Bool.false_eq_true, if_false]
    refine ⟨fun _ => trivial, fun hEq => absurd (by simp [hEq]) hemp, ?_⟩
    intro m hm
    simp [relevanceOf, hm]

/-- C7 (witness): the mean-confidence equation on a concrete engine and the
default relevance 1 on metadata without a relevance key. -/
theorem c7_witness :
    (query latestEngine "q" none [0] (fun _ => "a")).confidence =
      some (meanRelevance (query latestEngine "q" none [0] (fun _ => "a")).sources) ∧
    relevanceOf [] = 1 := by
  have h := c7_confidence_mean latestEngine "q" none [0] (fun _ => "a") none rfl
  exact ⟨h.1 (by decide), h.2.2 [] rfl⟩

/-- C8: citation deduplication — the citations are exactly the first-per-key
retrieved units mapped to source_info dicts; the kept units form a sublist
of the retrieval order (order preserved); their dedup keys are pairwise
distinct (at most one citation per key); for every key the kept unit is the
first unit of the retrieval with that key (first occurrence wins); and
whenever a unit's document_id is a non-empty string known to the registry,
its citation carries the owning registry entry. -/
theorem c8_citation_dedup (reg : List (String × Dict)) (docs : List StoredUnit) :
    dedupSources reg docs [] = (keepFirsts docs []).map (mkSourceInfo reg) ∧
    (keepFirsts docs []).Sublist docs ∧
    ((keepFirsts docs []).map (fun u => chunkKey u.meta)).Nodup ∧
    (∀ k : String, (keepFirsts docs []).find? (fun u => chunkKey u.meta == k) =
      docs.find? (fun u => chunkKey u.meta == k)) ∧
    (∀ (u : StoredUnit) (i : String) (e : Dict),
      dget u.meta "document_id" = some (MVal.s i) → i ≠ "" → dget reg i = some e →
      (mkSourceInfo reg u).metadata = some e) := by
  refine ⟨dedupSources_eq_map_keepFirsts reg docs [], keepFirsts_sublist docs [],
    (keepFirsts_not_seen_and_nodup docs []).2,
    fun k => keepFirsts_find? docs [] k rfl, ?_⟩
  intro u i e hid hne hreg
  simp [mkSourceInfo, lookupRegistry, hid, hne, hreg]

/-- C8 (witness): the dedup properties evaluated on a concrete retrieval
with a duplicated key f_0 and a registry entry for document D. -/
theorem c8_witness :
    dedupSources sampleReg [unitA, unitB, unitC] [] =
      (keepFirsts [unitA, unitB, unitC] []).map (mkSourceInfo sampleReg) ∧
    (keepFirsts [unitA, unitB, unitC] []).Sublist [unitA, unitB, unitC] ∧
    ((keepFirsts [unitA, unitB, unitC] []).map (fun u => chunkKey u.meta)).Nodup ∧
    (keepFirsts [unitA, unitB, unitC] []).find?
        (fun u => chunkKey u.meta == "f_0") =
      [unitA, unitB, unitC].find? (fun u => chunkKey u.meta == "f_0") ∧
    (mkSourceInfo sampleReg unitA).metadata = some [("source_type", MVal.s "file")] := by
  have h := c8_citation_dedup sampleReg [unitA, unitB, unitC]
  exact ⟨h.1, h.2.1, h.2.2.1, h.2.2.2.1 "f_0",
    h.2.2.2.2 unitA "D" [("source_type", MVal.s "file")] (by decide) (by decide)
      (by decide)⟩

/-- C9: the Chunker with target_size 1000 and overlap 200 is deterministic
(identical input gives identical output), a non-empty input shorter than
target_size yields exactly one chunk, and empty input yields an empty
sequence. -/
theorem c9_chunker_edges :
    (∀ t u : String, t = u → split t 1000 200 = split u 1000 200) ∧
    (∀ t : String, t ≠ "" → t.length < 1000 → split t 1000 200 = [t]) ∧
    split "" 1000 200 = [] := by
  refine ⟨fun t u h => by rw [h], ?_, rfl⟩
  intro t h1 h2
  have he : t.isEmpty = false := by
    cases hcase : t.isEmpty
    · rfl
    · exact absurd ((String.isEmpty_iff t).mp hcase) h1
  unfold split splitWithSeps
  simp [he, Nat.le_of_lt h2]

/-- C9 (witness): the chunker edge cases on concrete inputs. -/
theorem c9_witness :
    split "hi" 1000 200 = ["hi"] ∧ split "" 1000 200 = [] ∧
    split "x" 1000 200 = split "x" 1000 200 := by
  have h := c9_chunker_edges
  exact ⟨h.2.1 "hi" (by decide) (by decide), h.2.2, h.1 "x" "x" rfl⟩

/-- C10: a freshly opened engine over a non-empty persisted store and
registry has latest_document_id = none (it is never restored from disk), so
a "latest" query short-circuits with the no-documents answer even though
committed units and registry entries are present. -/
theorem c10_latest_not_restored (persistedStore : List StoredUnit)
    (reg : List (String × Dict)) (q : String) (f : Dict) (sel : List Nat)
    (llm : String → String)
    (_hreg : reg ≠ []) (_hstore : persistedStore ≠ [])
    (hf : ((dget f "latest").map MVal.truthy).getD false = true) :
    (initEngine persistedStore (some reg)).latestDocumentId = none ∧
    query (initEngine persistedStore (some reg)) q (some f) sel llm =
      { answer := noDocumentsMsg, sources := [], confidence := none } := by
  refine ⟨rfl, ?_⟩
  have hres : resolveFilter (initEngine persistedStore (some reg)) (some f) =
      .shortCircuit := by
    simp [resolveFilter, hf, initEngine]
  unfold query
  rw [hres]

/-- C10 (witness): the short-circuit on a concrete reopened engine whose
disk already holds one unit and one registry entry. -/
theorem c10_witness :
    (initEngine [unitA] (some sampleReg)).latestDocumentId = none ∧
    query (initEngine [unitA] (some sampleReg)) "q"
      (some [("latest", MVal.b true)]) [0] (fun _ => "a") =
      { answer := noDocumentsMsg, sources := [], confidence := none } :=
  c10_latest_not_restored [unitA] sampleReg "q" [("latest", MVal.b true)] [0]
    (fun _ => "a") (by decide) (by decide) (by decide)

end RagApp
